import Mathlib

set_option autoImplicit false

/-!
Verification of the room session core of the `rusty-robots` server.

The Rust sources embedded here are `src/game.rs` (the complete Room
implementation: `Room::create`, `create_token`, `join`, `connect`,
`disconnect`, `authenticate`, `handle_message`, `send_one`, `send_all`),
the `Handler<Join>` implementation of `src/game_server/room.rs` (the join
variant that also checks the room password), and
`src/game_server/validation.rs` (`Username::validate`).

Modelling conventions:
* `HashMap` becomes an association list; `alookup` finds the first entry
  with the given key and `aupdate` replaces the value of that entry,
  which agrees with `HashMap` behaviour whenever keys are unique.
* The random `generate_token` is modelled by threading the stream of
  tokens the generator would produce as an explicit list of candidates;
  `create_token`'s retry loop walks that list until it finds a token not
  already in the table, and returns `none` only when the candidate list
  is exhausted (the real loop would keep drawing).
* A tokio `mpsc` channel send is modelled as the pair
  `(recipient username, message)`; each operation returns the list of
  sends it performs, in order.  The `Receiver` handle the Rust code
  returns carries no room state and is dropped from the model.
-/

namespace RustyRobots

/-- Tokens are 16 random bytes in the source (`TOKEN_LEN = 16`); only
their equality matters here, so they are byte lists. -/
abbrev Token := List Nat

abbrev Username := String

/-- `Phase` from `game.rs` (one variant, `Bidding`). -/
inductive Phase
  | bidding
deriving DecidableEq, Repr

/-- `PlayerDescriptor` from `game.rs`: one entry of a `Welcome` snapshot. -/
structure PlayerDescriptor where
  name : Username
  points : Int
deriving DecidableEq, Repr

/-- `ServerMessage` from `game.rs`. -/
inductive ServerMessage
  | join (name : Username)
  | leave (name : Username)
  | connect (name : Username)
  | disconnect (name : Username)
  | welcome (name : Username) (players : List PlayerDescriptor)
      (host : Username) (phase : Option Phase)
  | chat (name : Username) (text : String)
deriving DecidableEq, Repr

/-- `PlayerMessage` from `game.rs`. -/
inductive PlayerMessage
  | chat (text : String)
  | start
deriving DecidableEq, Repr

/-- `RoomError`: the union of the taxonomies of `game.rs` and
`game_server/room.rs` (the latter adds `IncorrectPassword`). -/
inductive RoomError
  | gameStarted
  | playerExists (name : Username)
  | playerNotFound (name : Username)
  | playerConnected (name : Username)
  | playerDisconnected (name : Username)
  | incorrectPassword
deriving DecidableEq, Repr

/-- `Player` from `game.rs`: points and the optional outbound channel.
The `Sender` handle itself carries no state that the claims mention, so
the slot is `Option Unit`. -/
structure Player where
  points : Int
  channel_handle : Option Unit
deriving DecidableEq, Repr

/-- `Player::default()`: zero points, no channel. -/
def Player.default : Player := ⟨0, none⟩

/-- First-match association-list lookup (`HashMap::get`). -/
def alookup {α β : Type} [DecidableEq α] : List (α × β) → α → Option β
  | [], _ => none
  | (a, b) :: l, k => if a = k then some b else alookup l k

/-- Replace the value of the first entry with key `k`
(`HashMap::get_mut` followed by an assignment). -/
def aupdate {α β : Type} [DecidableEq α] : List (α × β) → α → β → List (α × β)
  | [], _, _ => []
  | (a, b) :: l, k, v => if a = k then (k, v) :: l else (a, b) :: aupdate l k v

/-- `Room` from `game.rs`. -/
structure Room where
  tokens : List (Token × Username)
  password : Option String
  players : List (Username × Player)
  host : Username
  phase : Option Phase
deriving DecidableEq, Repr

/-- One channel send: recipient username and the message delivered. -/
abbrev Send := Username × ServerMessage

/-- `Room::create_token` on a token table: walk the generator's candidate
stream until a token not yet in the table appears, insert it bound to
`name`, and return the token and the new table.  `none` models running
out of modelled candidates (the real loop would draw again). -/
def createToken (tokens : List (Token × Username)) (name : Username) :
    List Token → Option (Token × List (Token × Username))
  | [] => none
  | t :: ts =>
    if (alookup tokens t).isSome then createToken tokens name ts
    else some (t, (t, name) :: tokens)

/-- `Room::send_all` from `game.rs`: deliver `message` to every player
whose channel slot is occupied; players without a channel are skipped.
The room's own fields are not mutated, so only the sends are returned. -/
def Room.sendAll (room : Room) (message : ServerMessage) : List Send :=
  room.players.filterMap fun p => p.2.channel_handle.map fun _ => (p.1, message)

/-- `Room::send_one` from `game.rs`, as used by `connect` where its
`Result` is discarded (`let _ = ...`): the message is delivered exactly
when the recipient exists and has a channel, otherwise nothing happens. -/
def Room.sendOne (room : Room) (recipient : Username) (message : ServerMessage) :
    List Send :=
  match alookup room.players recipient with
  | none => []
  | some p =>
    match p.channel_handle with
    | none => []
    | some _ => [(recipient, message)]

/-- `Room::create` from `game.rs`: fresh room with the host as the only
player, then `create_token(host)`.  `cands` is the token generator's
stream; since the table is empty the first candidate is always taken. -/
def Room.create (host : Username) (password : Option String)
    (cands : List Token) : Option (Room × Token) :=
  let room : Room :=
    { tokens := [], password := password, players := [(host, Player.default)],
      host := host, phase := none }
  (createToken room.tokens host cands).map fun r =>
    ({ room with tokens := r.2 }, r.1)

/-- `Room::authenticate` from `game.rs`: pure token-table lookup. -/
def Room.authenticate (room : Room) (token : Token) : Option Username :=
  alookup room.tokens token

/-- `Room::join` from `game.rs` (this revision takes no password):
reject when a phase is set or the username already exists; otherwise
insert a default player, broadcast `Join`, and mint a token.
`some (.error e)` is a room error, `some (.ok ...)` carries the new room,
the minted token and the sends, `none` is candidate exhaustion. -/
def Room.join (room : Room) (name : Username) (cands : List Token) :
    Option (Except RoomError (Room × Token × List Send)) :=
  if room.phase.isSome then some (.error .gameStarted)
  else if (alookup room.players name).isSome then
    some (.error (.playerExists name))
  else
    let room1 := { room with players := room.players ++ [(name, Player.default)] }
    let sends := room1.sendAll (.join name)
    (createToken room1.tokens name cands).map fun r =>
      .ok ({ room1 with tokens := r.2 }, r.1, sends)

/-- `Handler<Join> for Room` from `game_server/room.rs`: like
`Room.join` but additionally rejects with `IncorrectPassword` when the
supplied password differs from the stored one (`self.password != msg.password`). -/
def Room.handleJoin (room : Room) (name : Username) (password : Option String)
    (cands : List Token) : Option (Except RoomError (Room × Token × List Send)) :=
  if room.phase.isSome then some (.error .gameStarted)
  else if (alookup room.players name).isSome then
    some (.error (.playerExists name))
  else if room.password ≠ password then some (.error .incorrectPassword)
  else
    let room1 := { room with players := room.players ++ [(name, Player.default)] }
    let sends := room1.sendAll (.join name)
    (createToken room1.tokens name cands).map fun r =>
      .ok ({ room1 with tokens := r.2 }, r.1, sends)

/-- `Room::connect` from `game.rs`: unknown player fails with
`PlayerNotFound`; an occupied channel slot fails with `PlayerConnected`;
otherwise a fresh channel is stored, the `Welcome` snapshot is privately
delivered to the connecting player, and `Connect` is broadcast to every
connected player (the new channel included). -/
def Room.connect (room : Room) (name : Username) :
    Except RoomError (Room × List Send) :=
  match alookup room.players name with
  | none => .error (.playerNotFound name)
  | some p =>
    if p.channel_handle.isSome then .error (.playerConnected name)
    else
      let room1 :=
        { room with players := aupdate room.players name { p with channel_handle := some () } }
      let wmsg : ServerMessage :=
        .welcome name (room1.players.map fun q => ⟨q.1, q.2.points⟩)
          room1.host room1.phase
      .ok (room1, room1.sendOne name wmsg ++ room1.sendAll (.connect name))

/-- `Room::disconnect` from `game.rs`: unknown player fails with
`PlayerNotFound`; an empty channel slot fails with `PlayerDisconnected`;
otherwise the slot is cleared (`take()`) before `Disconnect` is broadcast. -/
def Room.disconnect (room : Room) (name : Username) :
    Except RoomError (Room × List Send) :=
  match alookup room.players name with
  | none => .error (.playerNotFound name)
  | some p =>
    match p.channel_handle with
    | none => .error (.playerDisconnected name)
    | some _ =>
      let room1 :=
        { room with players := aupdate room.players name { p with channel_handle := none } }
      .ok (room1, room1.sendAll (.disconnect name))

/-- `Room::handle_message` from `game.rs`: a `Chat` message broadcasts
`Chat{name, text}` via `send_all` and nothing else; `Start` is
`unimplemented!()` in the source (a panic), modelled as `none`.
The room's fields are never mutated, so only the sends are returned. -/
def Room.handleMessage (room : Room) (name : Username) (message : PlayerMessage) :
    Option (List Send) :=
  match message with
  | .chat text => some (room.sendAll (.chat name text))
  | .start => none

/-- `Username::validate` from `game_server/validation.rs`, parametrised
over the external normalization pass (`ammonia::Builder::empty().clean`):
accept the value only when cleaning leaves it unchanged. -/
def Username.validate (clean : String → String) (value : String) :
    Except String String :=
  if clean value = value then .ok value
  else .error "username contained html"

/-- Reachable room states together with the log of `(token, username)`
pairs handed out so far: a room is born by `create` (logging the host
token) and evolves by `join` (either revision, logging the new token),
`connect` and `disconnect`.  `handle_message` never mutates the room
(its only effect is a broadcast), so it has no transition. -/
inductive Reachable : Room → List (Token × Username) → Prop
  | create (host : Username) (password : Option String) (cands : List Token)
      (room : Room) (tok : Token)
      (h : Room.create host password cands = some (room, tok)) :
      Reachable room [(tok, host)]
  | join (room : Room) (issued : List (Token × Username)) (name : Username)
      (cands : List Token) (room' : Room) (tok : Token) (sends : List Send)
      (hr : Reachable room issued)
      (h : room.join name cands = some (.ok (room', tok, sends))) :
      Reachable room' ((tok, name) :: issued)
  | handleJoin (room : Room) (issued : List (Token × Username)) (name : Username)
      (password : Option String) (cands : List Token) (room' : Room)
      (tok : Token) (sends : List Send)
      (hr : Reachable room issued)
      (h : room.handleJoin name password cands = some (.ok (room', tok, sends))) :
      Reachable room' ((tok, name) :: issued)
  | connect (room : Room) (issued : List (Token × Username)) (name : Username)
      (room' : Room) (sends : List Send)
      (hr : Reachable room issued)
      (h : room.connect name = .ok (room', sends)) :
      Reachable room' issued
  | disconnect (room : Room) (issued : List (Token × Username)) (name : Username)
      (room' : Room) (sends : List Send)
      (hr : Reachable room issued)
      (h : room.disconnect name = .ok (room', sends)) :
      Reachable room' issued

/-! ## Association-list lemmas -/

theorem alookup_append_left {α β : Type} [DecidableEq α] (l l2 : List (α × β)) (k : α)
    (h : (alookup l k).isSome) : alookup (l ++ l2) k = alookup l k := by
  induction l with
  | nil => simp [alookup] at h
  | cons p l ih =>
    obtain ⟨a, b⟩ := p
    by_cases hak : a = k
    · simp [alookup, hak]
    · simp only [alookup, hak, if_false] at h ⊢
      simpa [alookup, hak] using ih h

theorem alookup_append_right {α β : Type} [DecidableEq α] (l l2 : List (α × β)) (k : α)
    (h : alookup l k = none) : alookup (l ++ l2) k = alookup l2 k := by
  induction l with
  | nil => simp
  | cons p l ih =>
    obtain ⟨a, b⟩ := p
    by_cases hak : a = k
    · simp [alookup, hak] at h
    · simp only [alookup, hak, if_false] at h
      simpa [alookup, hak] using ih h

theorem alookup_aupdate {α β : Type} [DecidableEq α] (l : List (α × β)) (k k' : α) (v : β) :
    alookup (aupdate l k v) k' =
      if k' = k then (alookup l k).map (fun _ => v) else alookup l k' := by
  induction l with
  | nil => by_cases h : k' = k <;> simp [alookup, aupdate, h]
  | cons p l ih =>
    obtain ⟨a, b⟩ := p
    by_cases hak : a = k
    · subst hak
      by_cases hk' : k' = a
      · subst hk'
        simp [alookup, aupdate]
      · have hk2 : a ≠ k' := fun h => hk' h.symm
        simp [alookup, aupdate, hk', hk2]
    · by_cases hk' : k' = a
      · subst hk'
        have hk2 : ¬k' = k := fun h => hak (h ▸ rfl)
        simp [alookup, aupdate, hak, hk2]
      · have hk2 : a ≠ k' := fun h => hk' h.symm
        simp only [aupdate, if_neg hak, alookup, if_neg hk2, ih]

theorem mem_of_alookup {α β : Type} [DecidableEq α] (l : List (α × β)) (k : α) (v : β)
    (h : alookup l k = some v) : (k, v) ∈ l := by
  induction l with
  | nil => simp [alookup] at h
  | cons p l ih =>
    obtain ⟨a, b⟩ := p
    by_cases hak : a = k
    · subst hak
      simp [alookup] at h
      simp [h]
    · simp only [alookup, hak, if_false] at h
      exact List.mem_cons_of_mem _ (ih h)

/-! ## Basic facts about the embedded operations -/

/-- A successful `create_token` run picks a token absent from the table
and prepends the new binding. -/
theorem createToken_spec (tokens : List (Token × Username)) (name : Username)
    (cands : List Token) (t : Token) (tokens' : List (Token × Username))
    (h : createToken tokens name cands = some (t, tokens')) :
    alookup tokens t = none ∧ tokens' = (t, name) :: tokens := by
  induction cands with
  | nil => simp [createToken] at h
  | cons c cs ih =>
    by_cases hc : (alookup tokens c).isSome
    · simp only [createToken, hc, if_true] at h
      exact ih h
    · simp only [createToken, hc, if_false, Option.some.injEq, Prod.mk.injEq] at h
      obtain ⟨rfl, rfl⟩ := h
      exact ⟨Option.not_isSome_iff_eq_none.mp hc, rfl⟩

/-- Membership in a `send_all` broadcast: a pair `(u, m)` is sent iff
`m` is the broadcast message and `u` is a player with an occupied
channel slot. -/
theorem mem_sendAll (room : Room) (message : ServerMessage) (u : Username)
    (m : ServerMessage) :
    (u, m) ∈ room.sendAll message ↔
      m = message ∧ ∃ p, (u, p) ∈ room.players ∧ p.channel_handle.isSome := by
  simp only [Room.sendAll, List.mem_filterMap, Option.map_eq_some']
  constructor
  · rintro ⟨⟨u', p⟩, hmem, x, hch, heq⟩
    obtain ⟨rfl, rfl⟩ := Prod.mk.injEq .. ▸ heq
    exact ⟨rfl, p, hmem, by rw [hch]; rfl⟩
  · rintro ⟨rfl, p, hmem, hch⟩
    obtain ⟨x, hx⟩ := Option.isSome_iff_exists.mp hch
    exact ⟨(u, p), hmem, x, hx, rfl⟩

/-- Inversion of a successful `join` (the passwordless `game.rs` revision). -/
theorem join_ok_inv (room : Room) (name : Username) (cands : List Token)
    (room' : Room) (tok : Token) (sends : List Send)
    (h : room.join name cands = some (.ok (room', tok, sends))) :
    room.phase = none ∧ alookup room.players name = none ∧
      alookup room.tokens tok = none ∧
      room' = { room with players := room.players ++ [(name, Player.default)],
                          tokens := (tok, name) :: room.tokens } ∧
      sends = Room.sendAll { room with players := room.players ++ [(name, Player.default)] }
        (.join name) := by
  by_cases hp : room.phase.isSome
  · simp [Room.join, hp] at h
  · by_cases hm : (alookup room.players name).isSome
    · simp [Room.join, hp, hm] at h
    · match hct : createToken room.tokens name cands with
      | none => simp [Room.join, hp, hm, hct] at h
      | some (t, tokens') =>
        obtain ⟨hfresh, rfl⟩ := createToken_spec _ _ _ _ _ hct
        simp [Room.join, hp, hm, hct] at h
        obtain ⟨hroom, rfl, hsends⟩ := h
        exact ⟨Option.not_isSome_iff_eq_none.mp hp,
          Option.not_isSome_iff_eq_none.mp hm, hfresh, hroom.symm, hsends.symm⟩

/-- Inversion of a successful `Handler<Join>` run (the password-checking
`game_server/room.rs` revision). -/
theorem handleJoin_ok_inv (room : Room) (name : Username) (password : Option String)
    (cands : List Token) (room' : Room) (tok : Token) (sends : List Send)
    (h : room.handleJoin name password cands = some (.ok (room', tok, sends))) :
    room.phase = none ∧ alookup room.players name = none ∧
      room.password = password ∧ alookup room.tokens tok = none ∧
      room' = { room with players := room.players ++ [(name, Player.default)],
                          tokens := (tok, name) :: room.tokens } ∧
      sends = Room.sendAll { room with players := room.players ++ [(name, Player.default)] }
        (.join name) := by
  by_cases hp : room.phase.isSome
  · simp [Room.handleJoin, hp] at h
  · by_cases hm : (alookup room.players name).isSome
    · simp [Room.handleJoin, hp, hm] at h
    · by_cases hpw : room.password = password
      · match hct : createToken room.tokens name cands with
        | none => simp [Room.handleJoin, hp, hm, hpw, hct] at h
        | some (t, tokens') =>
          obtain ⟨hfresh, rfl⟩ := createToken_spec _ _ _ _ _ hct
          simp [Room.handleJoin, hp, hm, hpw, hct] at h
          obtain ⟨hroom, rfl, hsends⟩ := h
          refine ⟨Option.not_isSome_iff_eq_none.mp hp,
            Option.not_isSome_iff_eq_none.mp hm, hpw, hfresh, ?_, hsends.symm⟩
          rw [hpw]
          exact hroom.symm
      · simp [Room.handleJoin, hp, hm, hpw] at h

/-- Inversion of a successful `connect`. -/
theorem connect_ok_inv (room : Room) (name : Username) (room' : Room)
    (sends : List Send) (h : room.connect name = .ok (room', sends)) :
    ∃ p, alookup room.players name = some p ∧ p.channel_handle = none ∧
      room' = { room with
        players := aupdate room.players name { p with channel_handle := some () } } ∧
      sends = room'.sendOne name
          (.welcome name (room'.players.map fun q => ⟨q.1, q.2.points⟩)
            room.host room.phase) ++
        room'.sendAll (.connect name) := by
  match hm : alookup room.players name with
  | none => simp [Room.connect, hm] at h
  | some p =>
    by_cases hch : p.channel_handle.isSome
    · simp [Room.connect, hm, hch] at h
    · simp only [Room.connect, hm, hch, if_false, Except.ok.injEq, Prod.mk.injEq] at h
      obtain ⟨rfl, rfl⟩ := h
      exact ⟨p, rfl, Option.not_isSome_iff_eq_none.mp hch, rfl, rfl⟩

/-- Inversion of a successful `disconnect`. -/
theorem disconnect_ok_inv (room : Room) (name : Username) (room' : Room)
    (sends : List Send) (h : room.disconnect name = .ok (room', sends)) :
    ∃ p, alookup room.players name = some p ∧ p.channel_handle = some () ∧
      room' = { room with
        players := aupdate room.players name { p with channel_handle := none } } ∧
      sends = room'.sendAll (.disconnect name) := by
  match hm : alookup room.players name with
  | none => simp [Room.disconnect, hm] at h
  | some p =>
    match hch : p.channel_handle with
    | none => simp [Room.disconnect, hm, hch] at h
    | some _ =>
      simp only [Room.disconnect, hm, hch, Except.ok.injEq, Prod.mk.injEq] at h
      obtain ⟨rfl, rfl⟩ := h
      exact ⟨p, rfl, hch, rfl, rfl⟩

/-- Inversion of a successful `create`. -/
theorem create_ok_inv (host : Username) (password : Option String)
    (cands : List Token) (room : Room) (tok : Token)
    (h : Room.create host password cands = some (room, tok)) :
    room = { tokens := [(tok, host)], password := password,
             players := [(host, Player.default)], host := host, phase := none } := by
  match hct : createToken [] host cands with
  | none => simp [Room.create, hct] at h
  | some (t, tokens') =>
    obtain ⟨-, rfl⟩ := createToken_spec _ _ _ _ _ hct
    simp only [Room.create, hct, Option.map_some', Option.some.injEq,
      Prod.mk.injEq] at h
    obtain ⟨rfl, rfl⟩ := h
    rfl

/-- Host membership survives every reachable transition: `create` inserts
the host, `join` only appends players, `connect` and `disconnect` only
rewrite a player's channel slot in place. -/
theorem reachable_host_isSome (room : Room) (issued : List (Token × Username))
    (hr : Reachable room issued) : (alookup room.players room.host).isSome := by
  induction hr with
  | create host password cands room tok h =>
    have := create_ok_inv _ _ _ _ _ h
    subst this
    simp [alookup]
  | join r issued name cands r' tok sends hr h ih =>
    obtain ⟨-, -, -, hroom, -⟩ := join_ok_inv _ _ _ _ _ _ h
    subst hroom
    show (alookup (r.players ++ [(name, Player.default)]) r.host).isSome
    rw [alookup_append_left _ _ _ ih]
    exact ih
  | handleJoin r issued name password cands r' tok sends hr h ih =>
    obtain ⟨-, -, -, -, hroom, -⟩ := handleJoin_ok_inv _ _ _ _ _ _ _ h
    subst hroom
    show (alookup (r.players ++ [(name, Player.default)]) r.host).isSome
    rw [alookup_append_left _ _ _ ih]
    exact ih
  | connect r issued name r' sends hr h ih =>
    obtain ⟨p, hp, -, hroom, -⟩ := connect_ok_inv _ _ _ _ h
    subst hroom
    show (alookup (aupdate r.players name _) r.host).isSome
    rw [alookup_aupdate]
    by_cases hk : r.host = name
    · simp [hk, hp]
    · simp only [hk, if_false]
      exact ih
  | disconnect r issued name r' sends hr h ih =>
    obtain ⟨p, hp, -, hroom, -⟩ := disconnect_ok_inv _ _ _ _ h
    subst hroom
    show (alookup (aupdate r.players name _) r.host).isSome
    rw [alookup_aupdate]
    by_cases hk : r.host = name
    · simp [hk, hp]
    · simp only [hk, if_false]
      exact ih

/-- A concrete reachable room used by the witnesses: `create("alice", None)`
with the generator producing the token `[0, ..., 0]` first. -/
def demoRoom : Room :=
  { tokens := [(List.replicate 16 0, "alice")], password := none,
    players := [("alice", Player.default)], host := "alice", phase := none }

theorem demoRoom_reachable :
    Reachable demoRoom [(List.replicate 16 0, "alice")] :=
  Reachable.create "alice" none [List.replicate 16 0] demoRoom
    (List.replicate 16 0) (by decide)

/-- C1: `Room::create` always succeeds (for any token the generator
produces), registers the host as the first and only entry of the players
map, and mints a token bound to the host; and in every reachable room
state the host is a key of the players map (`join`, `connect` and
`disconnect` preserve it, and `handle_message` never touches the map). -/
theorem create_registers_host_and_host_invariant :
    (∀ (host : Username) (password : Option String) (c : Token) (cs : List Token),
      ∃ room tok,
        Room.create host password (c :: cs) = some (room, tok) ∧
        room.players = [(host, Player.default)] ∧
        room.host = host ∧
        room.authenticate tok = some host) ∧
    (∀ room issued, Reachable room issued →
      (alookup room.players room.host).isSome) := by
  constructor
  · intro host password c cs
    refine ⟨{ tokens := [(c, host)], password := password,
              players := [(host, Player.default)], host := host, phase := none },
            c, ?_, rfl, rfl, ?_⟩
    · simp [Room.create, createToken, alookup]
    · simp [Room.authenticate, alookup]
  · intro room issued hr
    exact reachable_host_isSome room issued hr

theorem create_registers_host_and_host_invariant_witness :
    (alookup demoRoom.players demoRoom.host).isSome :=
  create_registers_host_and_host_invariant.2 demoRoom
    [(List.replicate 16 0, "alice")] demoRoom_reachable

/-- C2: in every reachable room state, every token handed out by `create`
(the host token) or by a successful `join` of either revision still
authenticates to exactly the username it was issued to: `create_token`
only ever inserts a token that is absent from the table, so no issuance
overwrites an earlier binding, and no other operation touches the table. -/
theorem issued_tokens_authenticate (room : Room) (issued : List (Token × Username))
    (hr : Reachable room issued) :
    ∀ tok name, (tok, name) ∈ issued → room.authenticate tok = some name := by
  induction hr with
  | create host password cands room tok h =>
    have := create_ok_inv _ _ _ _ _ h
    subst this
    intro t u hmem
    simp only [List.mem_singleton] at hmem
    obtain ⟨rfl, rfl⟩ := Prod.mk.injEq .. ▸ hmem
    simp [Room.authenticate, alookup]
  | join r issued name cands r' tok sends hr h ih =>
    obtain ⟨-, -, hfresh, hroom, -⟩ := join_ok_inv _ _ _ _ _ _ h
    subst hroom
    intro t u hmem
    rcases List.mem_cons.mp hmem with heq | hold
    · obtain ⟨rfl, rfl⟩ := Prod.mk.injEq .. ▸ heq
      show alookup ((t, u) :: r.tokens) t = some u
      simp [alookup]
    · have hprev := ih t u hold
      have hne : ¬tok = t := by
        intro hEq
        rw [← hEq] at hprev
        rw [Room.authenticate, hfresh] at hprev
        exact Option.noConfusion hprev
      show alookup ((tok, name) :: r.tokens) t = some u
      simpa [alookup, hne] using hprev
  | handleJoin r issued name password cands r' tok sends hr h ih =>
    obtain ⟨-, -, -, hfresh, hroom, -⟩ := handleJoin_ok_inv _ _ _ _ _ _ _ h
    subst hroom
    intro t u hmem
    rcases List.mem_cons.mp hmem with heq | hold
    · obtain ⟨rfl, rfl⟩ := Prod.mk.injEq .. ▸ heq
      show alookup ((t, u) :: r.tokens) t = some u
      simp [alookup]
    · have hprev := ih t u hold
      have hne : ¬tok = t := by
        intro hEq
        rw [← hEq] at hprev
        rw [Room.authenticate, hfresh] at hprev
        exact Option.noConfusion hprev
      show alookup ((tok, name) :: r.tokens) t = some u
      simpa [alookup, hne] using hprev
  | connect r issued name r' sends hr h ih =>
    obtain ⟨p, -, -, hroom, -⟩ := connect_ok_inv _ _ _ _ h
    subst hroom
    intro t u hmem
    exact ih t u hmem
  | disconnect r issued name r' sends hr h ih =>
    obtain ⟨p, -, -, hroom, -⟩ := disconnect_ok_inv _ _ _ _ h
    subst hroom
    intro t u hmem
    exact ih t u hmem

theorem issued_tokens_authenticate_witness :
    demoRoom.authenticate (List.replicate 16 0) = some "alice" :=
  issued_tokens_authenticate demoRoom [(List.replicate 16 0, "alice")]
    demoRoom_reachable (List.replicate 16 0) "alice" (by decide)

/-- A concrete room with password `"swordfish"`, used by the C3 witness. -/
def pwRoom : Room :=
  { tokens := [], password := some "swordfish",
    players := [("alice", Player.default)], host := "alice", phase := none }

/-- C3: for a room with no phase set and a username that is not yet a
member, `Handler<Join>` fails with `IncorrectPassword` exactly when the
supplied password differs from the stored one (`self.password != msg.password`,
so two absent passwords match); on a mismatch the result is that error for
every candidate token stream, hence the join never succeeds and never
inserts the player. -/
theorem join_incorrect_password_iff (room : Room) (name : Username)
    (password : Option String)
    (hphase : room.phase = none) (hmem : alookup room.players name = none) :
    (room.password ≠ password →
      ∀ cands, room.handleJoin name password cands =
        some (.error .incorrectPassword)) ∧
    (room.password = password →
      ∀ cands, room.handleJoin name password cands ≠
        some (.error .incorrectPassword)) := by
  have hp : ¬room.phase.isSome := by simp [hphase]
  have hm : ¬(alookup room.players name).isSome := by simp [hmem]
  constructor
  · intro hne cands
    simp [Room.handleJoin, hp, hm, hne]
  · intro heq cands
    match hct : createToken room.tokens name cands with
    | none => simp [Room.handleJoin, hp, hm, heq, hct]
    | some r => simp [Room.handleJoin, hp, hm, heq, hct]

theorem join_incorrect_password_iff_witness :
    pwRoom.handleJoin "carol" (some "wrong") [] =
      some (.error .incorrectPassword) :=
  (join_incorrect_password_iff pwRoom "carol" (some "wrong") rfl
    (by decide)).1 (by decide) []

/-- A concrete room whose host already holds a live connection, used by
the C5 and C6 witnesses. -/
def connRoom : Room :=
  { tokens := [], password := none,
    players := [("alice", { points := 0, channel_handle := some () })],
    host := "alice", phase := none }

/-- C5: a `connect` for a member whose channel slot is already occupied
fails with `PlayerConnected`; the operation returns only the error, so the
room state is unchanged. -/
theorem connect_already_connected (room : Room) (name : Username) (p : Player)
    (hp : alookup room.players name = some p) (hch : p.channel_handle.isSome) :
    room.connect name = .error (.playerConnected name) := by
  simp [Room.connect, hp, hch]

theorem connect_already_connected_witness :
    connRoom.connect "alice" = .error (.playerConnected "alice") :=
  connect_already_connected connRoom "alice"
    { points := 0, channel_handle := some () } (by decide) (by decide)

/-- C6: `disconnect` fails with `PlayerNotFound` on an unknown username,
fails with `PlayerDisconnected` on a member without a live connection
(a never-connected member included), and on success clears that member's
channel slot and broadcasts `Disconnect{username}` to exactly the players
still holding a channel. -/
theorem disconnect_spec (room : Room) (name : Username) :
    (alookup room.players name = none →
      room.disconnect name = .error (.playerNotFound name)) ∧
    (∀ p, alookup room.players name = some p → p.channel_handle = none →
      room.disconnect name = .error (.playerDisconnected name)) ∧
    (∀ p, alookup room.players name = some p → p.channel_handle = some () →
      ∃ room' sends, room.disconnect name = .ok (room', sends) ∧
        alookup room'.players name =
          some { points := p.points, channel_handle := none } ∧
        (∀ u m, (u, m) ∈ sends ↔ m = ServerMessage.disconnect name ∧
          ∃ q, (u, q) ∈ room'.players ∧ q.channel_handle.isSome)) := by
  refine ⟨fun h => by simp [Room.disconnect, h],
    fun p hp hch => by simp [Room.disconnect, hp, hch], ?_⟩
  intro p hp hch
  have hq : ∃ q : Player, q = { points := p.points, channel_handle := none } :=
    ⟨_, rfl⟩
  obtain ⟨q, hq⟩ := hq
  refine ⟨{ room with players := aupdate room.players name q },
    Room.sendAll { room with players := aupdate room.players name q } (.disconnect name),
    ?_, ?_, ?_⟩
  · simp [Room.disconnect, hp, hch, hq]
  · show alookup (aupdate room.players name q) name = _
    rw [alookup_aupdate]
    simp [hp, hq]
  · intro u m
    exact mem_sendAll _ (.disconnect name) u m

theorem disconnect_spec_witness :
    connRoom.disconnect "bob" = .error (.playerNotFound "bob") ∧
    demoRoom.disconnect "alice" = .error (.playerDisconnected "alice") ∧
    ∃ room' sends, connRoom.disconnect "alice" = .ok (room', sends) := by
  refine ⟨(disconnect_spec connRoom "bob").1 (by decide),
    (disconnect_spec demoRoom "alice").2.1 Player.default (by decide) rfl, ?_⟩
  obtain ⟨room', sends, heq, -⟩ :=
    (disconnect_spec connRoom "alice").2.2
      { points := 0, channel_handle := some () } (by decide) rfl
  exact ⟨room', sends, heq⟩

/-- C9: `handle_message` with a `Chat{text}` message always succeeds and
broadcasts `Chat{name, text}` to exactly the currently connected players;
the sender `name` is entirely unconstrained (no membership or connection
check is performed on it), and the room state is not modified. -/
theorem handleMessage_chat_broadcasts (room : Room) (name : Username)
    (text : String) :
    ∃ sends, room.handleMessage name (.chat text) = some sends ∧
      ∀ u m, (u, m) ∈ sends ↔
        m = ServerMessage.chat name text ∧
        ∃ p, (u, p) ∈ room.players ∧ p.channel_handle.isSome :=
  ⟨_, rfl, fun u m => mem_sendAll room (.chat name text) u m⟩

/-- Updating a player's channel slot does not change the
`(username, points)` view of the players map. -/
theorem map_desc_aupdate (l : List (Username × Player)) (k : Username)
    (p v : Player) (hl : alookup l k = some p) (hpts : v.points = p.points) :
    (aupdate l k v).map (fun q => (⟨q.1, q.2.points⟩ : PlayerDescriptor)) =
      l.map fun q => ⟨q.1, q.2.points⟩ := by
  induction l with
  | nil => rfl
  | cons a l ih =>
    obtain ⟨a1, a2⟩ := a
    by_cases hk : a1 = k
    · subst hk
      have ha2 : a2 = p := by simpa [alookup] using hl
      subst ha2
      simp [aupdate, hpts]
    · simp only [alookup, if_neg hk] at hl
      simp only [aupdate, if_neg hk, List.map_cons]
      rw [ih hl]

/-- Membership in the descriptor view of a players map. -/
theorem mem_map_desc (l : List (Username × Player)) (u : Username) (pts : Int) :
    (⟨u, pts⟩ : PlayerDescriptor) ∈
        l.map (fun q => (⟨q.1, q.2.points⟩ : PlayerDescriptor)) ↔
      ∃ p, (u, p) ∈ l ∧ p.points = pts := by
  simp only [List.mem_map]
  constructor
  · rintro ⟨⟨a1, a2⟩, hmem, heq⟩
    obtain ⟨rfl, rfl⟩ := PlayerDescriptor.mk.injEq .. ▸ heq
    exact ⟨a2, hmem, rfl⟩
  · rintro ⟨p, hmem, rfl⟩
    exact ⟨(u, p), hmem, rfl⟩

/-- Under unique keys, any entry of `aupdate l k v` with key `k` holds
the value `v`, provided `k` was present. -/
theorem mem_aupdate_self_nodup {α β : Type} [DecidableEq α] (l : List (α × β))
    (k : α) (v q : β) (hnd : (l.map Prod.fst).Nodup)
    (hmem : (k, q) ∈ aupdate l k v) (hk : (alookup l k).isSome) : q = v := by
  induction l with
  | nil => simp [aupdate] at hmem
  | cons a l ih =>
    obtain ⟨a1, a2⟩ := a
    simp only [List.map_cons, List.nodup_cons] at hnd
    obtain ⟨hnotin, hnd2⟩ := hnd
    by_cases hk1 : a1 = k
    · subst hk1
      simp only [aupdate, if_pos rfl] at hmem
      rcases List.mem_cons.mp hmem with heq | hin
      · exact (Prod.mk.injEq .. ▸ heq).2
      · exact absurd (List.mem_map_of_mem Prod.fst hin) (by simpa using hnotin)
    · simp only [aupdate, if_neg hk1] at hmem
      rcases List.mem_cons.mp hmem with heq | hin
      · exact absurd (Prod.mk.injEq .. ▸ heq).1.symm hk1
      · refine ih hnd2 hin ?_
        simpa [alookup, hk1] using hk

/-- The room and the send list that `connect("alice")` on `demoRoom`
produces, used by the C4 witness. -/
def demoConnRoom : Room :=
  { tokens := [(List.replicate 16 0, "alice")], password := none,
    players := [("alice", { points := 0, channel_handle := some () })],
    host := "alice", phase := none }

def demoConnSends : List Send :=
  [("alice", ServerMessage.welcome "alice" [⟨"alice", 0⟩] "alice" none),
   ("alice", ServerMessage.connect "alice")]

/-- C4: a successful `connect` first delivers the `Welcome` snapshot to
the connecting player's newly created channel (it is the head of the
operation's send sequence, and no other message of the operation is a
`Welcome`), listing exactly the members of the room with their points
together with the host and phase; afterwards `Connect{username}` is
broadcast to exactly the connected players, the new connection included. -/
theorem connect_welcome_then_broadcast (room : Room) (name : Username)
    (room' : Room) (sends : List Send)
    (h : room.connect name = .ok (room', sends)) :
    ∃ wplayers rest,
      sends = (name, ServerMessage.welcome name wplayers room.host room.phase) :: rest ∧
      (∀ u pts, (⟨u, pts⟩ : PlayerDescriptor) ∈ wplayers ↔
        ∃ p, (u, p) ∈ room.players ∧ p.points = pts) ∧
      (∀ u m, (u, m) ∈ rest → m = ServerMessage.connect name) ∧
      (∀ u, (u, ServerMessage.connect name) ∈ rest ↔
        ∃ p, (u, p) ∈ room'.players ∧ p.channel_handle.isSome) ∧
      (name, ServerMessage.connect name) ∈ rest := by
  obtain ⟨p, hp, hch, hroom, hsends⟩ := connect_ok_inv _ _ _ _ h
  subst hroom
  subst hsends
  have halk : alookup (aupdate room.players name { p with channel_handle := some () })
      name = some { p with channel_handle := some () } := by
    rw [alookup_aupdate]
    simp [hp]
  have hone : Room.sendOne
      { room with players := aupdate room.players name { p with channel_handle := some () } }
      name (ServerMessage.welcome name
        ((aupdate room.players name { p with channel_handle := some () }).map
          fun q => ⟨q.1, q.2.points⟩) room.host room.phase) =
      [(name, ServerMessage.welcome name
        ((aupdate room.players name { p with channel_handle := some () }).map
          fun q => ⟨q.1, q.2.points⟩) room.host room.phase)] := by
    simp [Room.sendOne, halk]
  refine ⟨(aupdate room.players name { p with channel_handle := some () }).map
      (fun q => ⟨q.1, q.2.points⟩),
    Room.sendAll { room with players := aupdate room.players name { p with channel_handle := some () } } (.connect name),
    ?_, ?_, ?_, ?_, ?_⟩
  · show Room.sendOne _ name _ ++ _ = _
    rw [hone]
    rfl
  · intro u pts
    rw [map_desc_aupdate room.players name p { p with channel_handle := some () } hp rfl]
    exact mem_map_desc room.players u pts
  · intro u m hm
    exact ((mem_sendAll _ _ _ _).mp hm).1
  · intro u
    rw [mem_sendAll _ (.connect name) u (.connect name)]
    simp
  · exact (mem_sendAll _ (.connect name) name _).mpr
      ⟨rfl, { p with channel_handle := some () }, mem_of_alookup _ _ _ halk, rfl⟩

theorem connect_welcome_then_broadcast_witness :
    ∃ wplayers rest,
      demoConnSends =
        ("alice", ServerMessage.welcome "alice" wplayers demoRoom.host demoRoom.phase)
          :: rest ∧
      (∀ u pts, (⟨u, pts⟩ : PlayerDescriptor) ∈ wplayers ↔
        ∃ p, (u, p) ∈ demoRoom.players ∧ p.points = pts) ∧
      (∀ u m, (u, m) ∈ rest → m = ServerMessage.connect "alice") ∧
      (∀ u, (u, ServerMessage.connect "alice") ∈ rest ↔
        ∃ p, (u, p) ∈ demoConnRoom.players ∧ p.channel_handle.isSome) ∧
      ("alice", ServerMessage.connect "alice") ∈ rest :=
  connect_welcome_then_broadcast demoRoom "alice" demoConnRoom demoConnSends
    rfl

/-- A room with two connected members, used by the C10 witness. -/
def twoRoom : Room :=
  { tokens := [], password := none,
    players := [("alice", { points := 0, channel_handle := some () }),
                ("bob", { points := 0, channel_handle := some () })],
    host := "alice", phase := none }

/-- C10: a successful `disconnect` clears the player's channel slot
before the `Disconnect` broadcast is issued, so no message of the
operation is addressed to the departing player; the player's membership
and points, every other player's entry, and the token table, password,
host and phase are all unchanged.  (Key uniqueness, a `HashMap`
invariant, is assumed of the players map.) -/
theorem disconnect_frame (room : Room) (name : Username) (room' : Room)
    (sends : List Send) (hnd : (room.players.map Prod.fst).Nodup)
    (h : room.disconnect name = .ok (room', sends)) :
    (∀ m, (name, m) ∉ sends) ∧
    room'.tokens = room.tokens ∧ room'.password = room.password ∧
    room'.host = room.host ∧ room'.phase = room.phase ∧
    (∃ p, alookup room.players name = some p ∧
      alookup room'.players name =
        some { points := p.points, channel_handle := none }) ∧
    (∀ u, ¬u = name → alookup room'.players u = alookup room.players u) ∧
    room'.players.map (fun q => (⟨q.1, q.2.points⟩ : PlayerDescriptor)) =
      room.players.map (fun q => ⟨q.1, q.2.points⟩) ∧
    (∀ u m, (u, m) ∈ sends → m = ServerMessage.disconnect name) := by
  obtain ⟨p, hp, hch, hroom, hsends⟩ := disconnect_ok_inv _ _ _ _ h
  subst hroom
  subst hsends
  refine ⟨?_, rfl, rfl, rfl, rfl, ⟨p, hp, ?_⟩, ?_, ?_, ?_⟩
  · intro m hmem
    obtain ⟨-, q, hq, hqs⟩ := (mem_sendAll _ _ _ _).mp hmem
    have hqv := mem_aupdate_self_nodup room.players name
      { p with channel_handle := none } q hnd hq (by simp [hp])
    rw [hqv] at hqs
    simp at hqs
  · show alookup (aupdate room.players name _) name = _
    rw [alookup_aupdate]
    simp [hp]
  · intro u hu
    show alookup (aupdate room.players name _) u = _
    rw [alookup_aupdate]
    simp [hu]
  · exact map_desc_aupdate room.players name p _ hp rfl
  · intro u m hm
    exact ((mem_sendAll _ _ _ _).mp hm).1

theorem disconnect_frame_witness :
    ("bob", ServerMessage.disconnect "bob") ∉
      [("alice", ServerMessage.disconnect "bob")] :=
  (disconnect_frame twoRoom "bob"
    { tokens := [], password := none,
      players := [("alice", { points := 0, channel_handle := some () }),
                  ("bob", { points := 0, channel_handle := none })],
      host := "alice", phase := none }
    [("alice", ServerMessage.disconnect "bob")] (by decide) rfl).1
    (ServerMessage.disconnect "bob")

/-- C7: `Username::validate` accepts a string exactly when it is a fixed
point of the normalization pass, and on acceptance returns the original
value unmodified; a string the pass would alter is rejected with an
error, never silently rewritten.  The pass itself
(`ammonia::Builder::empty().clean`, an external crate) is abstract here. -/
theorem validate_accepts_iff_clean_fixed (clean : String → String)
    (value : String) :
    ((∃ u, Username.validate clean value = .ok u) ↔ clean value = value) ∧
    (∀ u, Username.validate clean value = .ok u → u = value) := by
  constructor
  · constructor
    · rintro ⟨u, hu⟩
      by_cases h : clean value = value
      · exact h
      · simp [Username.validate, h] at hu
    · intro h
      exact ⟨value, by simp [Username.validate, h]⟩
  · intro u hu
    by_cases h : clean value = value
    · simp [Username.validate, h] at hu
      exact hu.symm
    · simp [Username.validate, h] at hu

theorem validate_accepts_iff_clean_fixed_witness :
    (∃ u, Username.validate id "bob" = .ok u) ∧ ("bob" : String) = "bob" :=
  ⟨(validate_accepts_iff_clean_fixed id "bob").1.mpr rfl,
   (validate_accepts_iff_clean_fixed id "bob").2 "bob" rfl⟩

end RustyRobots
